import Mathlib

/-!
Verification of the provider-abstraction and streaming layer of the novel-agent
repository, as a shallow embedding in Lean.

Embedded source files:
* `src/providers/base.ts`   — `Message`, `ModelResponse`, `ModelConfig`, the
  constructor's config resolution, `getConfig`, and the default `streamChat`.
* `src/providers/claude.ts` — `ClaudeProvider.convertMessages` and the request
  object built by `ClaudeProvider.chat`.
* `src/providers/deepseek.ts` — `DeepSeekProvider.convertMessages` and the SSE
  line-decoding loop of `DeepSeekProvider.streamChat`.
* `src/agent.ts` — `NovelAgent.chat`, `getHistory`, and conversation history.

JavaScript strings are embedded as `List Char`; the network layer is abstracted
by passing the textual chunks delivered by `reader.read()` (after `TextDecoder`)
as a list, and a provider's remote `chat` call as an explicit function returning
`Except`.  `JSON.parse` (a runtime builtin, not repository code) is modelled by
an executable JSON parser below.
-/

/-- Roles of the `Message` interface in `src/providers/base.ts`. -/
inductive Role : Type where
  | user : Role
  | assistant : Role
  | system : Role
deriving DecidableEq

/-- The `Message` interface of `src/providers/base.ts`: a role and a content. -/
structure Message : Type where
  role : Role
  content : String
deriving DecidableEq

/-- Usage counters of the `ModelResponse` interface (`src/providers/base.ts`). -/
structure Usage : Type where
  promptTokens : Nat
  completionTokens : Nat
  totalTokens : Nat
deriving DecidableEq

/-- The `ModelResponse` interface of `src/providers/base.ts`. -/
structure ModelResponse : Type where
  content : String
  model : String
  usage : Option Usage := none
deriving DecidableEq

/-!
## A model of the JavaScript `JSON.parse` builtin

`DeepSeekProvider.streamChat` calls `JSON.parse` on each SSE line's payload.
`JSON.parse` is a runtime builtin, not code of this repository, so it is
modelled here: a fuel-indexed recursive-descent parser for JSON.  Numbers are
stored as their lexeme (their numeric value is never consumed downstream).
-/

/-- A parsed JSON value.  Object member lists keep source order. -/
inductive Json : Type where
  | null : Json
  | bool : Bool → Json
  | num : List Char → Json
  | str : List Char → Json
  | arr : List Json → Json
  | obj : List (List Char × Json) → Json

/-- JSON insignificant whitespace. -/
def jIsWs (c : Char) : Bool :=
  c = ' ' || c = '\t' || c = '\n' || c = '\r'

/-- Value of one hexadecimal digit, for `\u` escapes. -/
def hexVal (c : Char) : Option Nat :=
  if '0' ≤ c ∧ c ≤ '9' then some (c.toNat - '0'.toNat)
  else if 'a' ≤ c ∧ c ≤ 'f' then some (c.toNat - 'a'.toNat + 10)
  else if 'A' ≤ c ∧ c ≤ 'F' then some (c.toNat - 'A'.toNat + 10)
  else none

/-- Single-character JSON string escapes. -/
def escChar : Char → Option Char
  | '"' => some '"'
  | '\\' => some '\\'
  | '/' => some '/'
  | 'b' => some (Char.ofNat 8)
  | 'f' => some (Char.ofNat 12)
  | 'n' => some '\n'
  | 'r' => some '\r'
  | 't' => some '\t'
  | _ => none

/-- Parse the body of a JSON string after the opening quote; returns the
decoded characters and the remaining input after the closing quote. -/
def parseStr : Nat → List Char → Option (List Char × List Char)
  | 0, _ => none
  | Nat.succ fuel, s =>
    match s with
    | [] => none
    | '"' :: r => some ([], r)
    | '\\' :: e :: r =>
      match escChar e with
      | some c =>
        match parseStr fuel r with
        | some p => some (c :: p.1, p.2)
        | none => none
      | none =>
        if e = 'u' then
          match r with
          | h1 :: h2 :: h3 :: h4 :: r1 =>
            match hexVal h1, hexVal h2, hexVal h3, hexVal h4 with
            | some a, some b, some c, some d =>
              match parseStr fuel r1 with
              | some p => some (Char.ofNat (((a * 16 + b) * 16 + c) * 16 + d) :: p.1, p.2)
              | none => none
            | _, _, _, _ => none
          | _ => none
        else none
    | c :: r =>
      if c.toNat < 32 then none
      else
        match parseStr fuel r with
        | some p => some (c :: p.1, p.2)
        | none => none

/-- Parse the integer part of a JSON number (no leading zeros). -/
def parseIntPart : List Char → Option (List Char × List Char)
  | [] => none
  | '0' :: r => some (['0'], r)
  | c :: r =>
    if c.isDigit then some (c :: r.takeWhile Char.isDigit, r.dropWhile Char.isDigit)
    else none

/-- Parse an optional fraction part, returning its lexeme. -/
def parseFracPart : List Char → Option (List Char × List Char)
  | '.' :: r =>
    if r.takeWhile Char.isDigit = [] then none
    else some ('.' :: r.takeWhile Char.isDigit, r.dropWhile Char.isDigit)
  | s => some ([], s)

/-- Parse an optional exponent part, returning its lexeme. -/
def parseExpPart : List Char → Option (List Char × List Char)
  | [] => some ([], [])
  | c :: r =>
    if c = 'e' ∨ c = 'E' then
      match r with
      | sgn :: r1 =>
        if sgn = '+' ∨ sgn = '-' then
          if r1.takeWhile Char.isDigit = [] then none
          else some (c :: sgn :: r1.takeWhile Char.isDigit, r1.dropWhile Char.isDigit)
        else
          if r.takeWhile Char.isDigit = [] then none
          else some (c :: r.takeWhile Char.isDigit, r.dropWhile Char.isDigit)
      | [] => none
    else some ([], c :: r)

/-- Parse a JSON number, storing its lexeme. -/
def parseNum (s : List Char) : Option (Json × List Char) :=
  let signed := match s with
    | '-' :: r => ((['-'] : List Char), r)
    | _ => (([] : List Char), s)
  match parseIntPart signed.2 with
  | none => none
  | some (ip, r1) =>
    match parseFracPart r1 with
    | none => none
    | some (fp, r2) =>
      match parseExpPart r2 with
      | none => none
      | some (ep, r3) => some (Json.num (signed.1 ++ ip ++ fp ++ ep), r3)

mutual

/-- Parse one JSON value (after skipping leading whitespace). -/
def parseVal : Nat → List Char → Option (Json × List Char)
  | 0, _ => none
  | Nat.succ fuel, s =>
    match s.dropWhile jIsWs with
    | 'n' :: 'u' :: 'l' :: 'l' :: r => some (Json.null, r)
    | 't' :: 'r' :: 'u' :: 'e' :: r => some (Json.bool true, r)
    | 'f' :: 'a' :: 'l' :: 's' :: 'e' :: r => some (Json.bool false, r)
    | '"' :: r =>
      match parseStr (r.length + 1) r with
      | some (cs, r1) => some (Json.str cs, r1)
      | none => none
    | '[' :: r =>
      match r.dropWhile jIsWs with
      | ']' :: r1 => some (Json.arr [], r1)
      | _ =>
        match parseElems fuel r with
        | some (vs, r1) => some (Json.arr vs, r1)
        | none => none
    | '{' :: r =>
      match r.dropWhile jIsWs with
      | '}' :: r1 => some (Json.obj [], r1)
      | _ =>
        match parseMembers fuel r with
        | some (ms, r1) => some (Json.obj ms, r1)
        | none => none
    | other => parseNum other

/-- Parse the comma-separated elements of a non-empty JSON array. -/
def parseElems : Nat → List Char → Option (List Json × List Char)
  | 0, _ => none
  | Nat.succ fuel, s =>
    match parseVal fuel s with
    | none => none
    | some (v, r) =>
      match r.dropWhile jIsWs with
      | ',' :: r1 =>
        match parseElems fuel r1 with
        | some (vs, r2) => some (v :: vs, r2)
        | none => none
      | ']' :: r1 => some ([v], r1)
      | _ => none

/-- Parse the comma-separated members of a non-empty JSON object. -/
def parseMembers : Nat → List Char → Option (List (List Char × Json) × List Char)
  | 0, _ => none
  | Nat.succ fuel, s =>
    match s.dropWhile jIsWs with
    | '"' :: r =>
      match parseStr (r.length + 1) r with
      | none => none
      | some (key, r1) =>
        match r1.dropWhile jIsWs with
        | ':' :: r2 =>
          match parseVal fuel r2 with
          | none => none
          | some (v, r3) =>
            match r3.dropWhile jIsWs with
            | ',' :: r4 =>
              match parseMembers fuel r4 with
              | some (ms, r5) => some ((key, v) :: ms, r5)
              | none => none
            | '}' :: r4 => some ([(key, v)], r4)
            | _ => none
        | _ => none
    | _ => none

end

/-- Model of `JSON.parse`: parse one value, allow trailing whitespace only.
Returns `none` exactly when `JSON.parse` would throw a `SyntaxError`. -/
def jsonParse (s : List Char) : Option Json :=
  match parseVal (s.length + 1) s with
  | some (j, r) => if r.dropWhile jIsWs = [] then some j else none
  | none => none

/-- Field access on a parsed object; for duplicate keys `JSON.parse` keeps the
last occurrence, so the lookup prefers later members.  Any non-object value
yields `none` (in JS, `undefined`). -/
def lookupField : List (List Char × Json) → List Char → Option Json
  | [], _ => none
  | (k, v) :: ms, key =>
    match lookupField ms key with
    | some w => some w
    | none => if k = key then some v else none

/-- Model of JS property access `j.key` on a parsed JSON value. -/
def getField (j : Json) (key : List Char) : Option Json :=
  match j with
  | Json.obj ms => lookupField ms key
  | _ => none

/-- Model of JS indexing `j[0]` on a parsed JSON array. -/
def index0 : Json → Option Json
  | Json.arr (v :: _) => some v
  | _ => none

/-- Model of `json.choices[0]?.delta?.content` in `DeepSeekProvider.streamChat`
(`src/providers/deepseek.ts` line 130).  Per the wire format the delta content
is a string; an absent chain member (JS `undefined`, or the `TypeError` the
surrounding `try` swallows) is `none`. -/
def deltaContent (j : Json) : Option (List Char) :=
  match getField j (("choices").data) with
  | none => none
  | some c =>
    match index0 c with
    | none => none
    | some f =>
      match getField f (("delta").data) with
      | none => none
      | some d =>
        match getField d (("content").data) with
        | some (Json.str s) => some s
        | _ => none

/-!
## The SSE line decoder of `DeepSeekProvider.streamChat`

`src/providers/deepseek.ts` lines 112–138: the loop keeps a carry-over
`buffer`, appends each decoded chunk, splits on `'\n'`, pops the last (possibly
incomplete) piece back into the buffer, and processes every completed line:
blank lines and the `data: [DONE]` sentinel are skipped with `continue`, lines
without the `data: ` marker are skipped, and otherwise the payload after the
marker is `JSON.parse`d inside a `try` whose `catch` ignores the line; a parsed
chunk contributes `json.choices[0]?.delta?.content` when that value is truthy.
-/

/-- Whitespace for the JS `String.prototype.trim` model. -/
def jsWhitespace (c : Char) : Bool :=
  c = ' ' || c = '\t' || c = '\n' || c = '\r' || c = '\x0b' || c = '\x0c'

/-- Model of JS `line.trim()`. -/
def jsTrim (s : List Char) : List Char :=
  ((s.dropWhile jsWhitespace).reverse.dropWhile jsWhitespace).reverse

/-- The fixed `data: ` marker of the SSE framing. -/
def dataMarker : List Char := ("data: ").data

/-- The `data: [DONE]` sentinel line. -/
def doneChars : List Char := ("data: [DONE]").data

/-- Fragments contributed by one completed line, following the loop body of
`DeepSeekProvider.streamChat` (`src/providers/deepseek.ts` lines 122–136):
trim; skip blank lines and the sentinel; require the `data: ` marker; parse
the payload after the six marker characters (`trimmed.slice(6)`); on success
yield the delta content if it is truthy (a non-empty string), and on a parse
failure yield nothing (the `catch` swallows the error). -/
def lineFragments (line : List Char) : List (List Char) :=
  let trimmed := jsTrim line
  if trimmed = [] then []
  else if trimmed = doneChars then []
  else if ¬ (dataMarker.isPrefixOf trimmed) then []
  else
    match jsonParse (trimmed.drop 6) with
    | none => []
    | some j =>
      match deltaContent j with
      | some delta => if delta = [] then [] else [delta]
      | none => []

/-- Model of JS `buffer.split('\n')`: for `n` newline characters the result has
`n + 1` pieces (so it is never empty), in order, none containing `'\n'`. -/
def splitOnNl : List Char → List (List Char)
  | [] => [[]]
  | c :: cs =>
    if c = '\n' then [] :: splitOnNl cs
    else
      match splitOnNl cs with
      | [] => [[c]]
      | l :: ls => (c :: l) :: ls

/-- One iteration of the read loop of `DeepSeekProvider.streamChat`
(`src/providers/deepseek.ts` lines 113–137) on the state (fragments yielded so
far, carry-over buffer): append the decoded chunk to the buffer, split on
newlines, pop the final piece back as the new buffer (`buffer = lines.pop()`),
and emit the fragments of every completed line in order. -/
def streamStep (st : List (List Char) × List Char) (chunk : List Char) :
    List (List Char) × List Char :=
  let pieces := splitOnNl (st.2 ++ chunk)
  (st.1 ++ pieces.dropLast.flatMap lineFragments, pieces.getLastD [])

/-- The whole decoding loop of `DeepSeekProvider.streamChat` over the list of
textual chunks delivered by `reader.read()`: fold `streamStep` from an empty
buffer.  The first component is the fragment sequence yielded; the second is
the buffer left over when the byte stream reports completion (the loop body
discards it — nothing after `break` flushes it). -/
def streamDecode (chunks : List (List Char)) : List (List Char) × List Char :=
  chunks.foldl streamStep ([], [])

/-- Character-at-a-time reformulation of the same decoder, used to reason about
re-chunking: a newline completes the buffered line and emits its fragments, any
other character is appended to the buffer. -/
def charStep (st : List (List Char) × List Char) (c : Char) :
    List (List Char) × List Char :=
  if c = '\n' then (st.1 ++ lineFragments st.2, []) else (st.1, st.2 ++ [c])

/-!
## Request building of the two adapters
-/

/-- Model of `ClaudeProvider.convertMessages` (`src/providers/claude.ts` lines
29–38): drop `system`-role entries, map the rest to role/content pairs. -/
def ClaudeProvider.convertMessages (messages : List Message) : List Message :=
  (messages.filter (fun msg => decide (msg.role ≠ Role.system))).map
    (fun msg => { role := msg.role, content := msg.content })

/-- The argument object `ClaudeProvider.chat` passes to
`client.messages.create` (`src/providers/claude.ts` lines 43–49). -/
structure ClaudeRequest : Type where
  model : String
  maxTokens : Nat
  temperature : Rat
  system : Option String
  messages : List Message
deriving DecidableEq

/-- Request building of `ClaudeProvider.chat` (`src/providers/claude.ts` lines
40–50): convert the history and attach the system instruction as the dedicated
top-level `system` field, alongside model, max-tokens and temperature. -/
def ClaudeProvider.buildRequest (model : String) (maxTokens : Nat)
    (temperature : Rat) (messages : List Message) (systemPrompt : Option String) :
    ClaudeRequest :=
  { model := model
    maxTokens := maxTokens
    temperature := temperature
    system := systemPrompt
    messages := ClaudeProvider.convertMessages messages }

/-- JS truthiness of the optional `systemPrompt` string parameter: `undefined`
and the empty string are falsy. -/
def jsTruthyStr : Option String → Bool
  | none => false
  | some s => decide (s ≠ "")

/-- Model of `DeepSeekProvider.convertMessages` (`src/providers/deepseek.ts`
lines 26–40): `if (systemPrompt)` pushes one `system` message first, then every
history entry is pushed with its role and content unchanged. -/
def DeepSeekProvider.convertMessages (messages : List Message)
    (systemPrompt : Option String) : List Message :=
  (if jsTruthyStr systemPrompt
    then [{ role := Role.system, content := systemPrompt.getD "" }]
    else []) ++
  messages.map (fun msg => { role := msg.role, content := msg.content })

/-!
## The abstract provider base class (`src/providers/base.ts`)

The remote `chat` call of a concrete adapter is abstracted as a function
returning `Except E ModelResponse` (`Except.error` models a thrown error).
-/

/-- The `ModelConfig` interface (`src/providers/base.ts` lines 24–30);
`temperature` is an exact rational, no floating-point arithmetic is performed
on it. -/
structure ModelConfig : Type where
  apiKey : String
  model : Option String := none
  maxTokens : Option Nat := none
  temperature : Option Rat := none
  baseURL : Option String := none
deriving DecidableEq

/-- The resolved fields the `ModelProvider` constructor stores. -/
structure ProviderState : Type where
  apiKey : String
  model : String
  maxTokens : Nat
  temperature : Rat
  baseURL : Option String
deriving DecidableEq

/-- JS `a || b` defaulting on an optional string (falsy: `undefined`, `""`). -/
def jsOrString (v : Option String) (d : String) : String :=
  match v with
  | some s => if s = "" then d else s
  | none => d

/-- JS `a || b` defaulting on an optional numeric config field (falsy:
`undefined`, `0`). -/
def jsOrNat (v : Option Nat) (d : Nat) : Nat :=
  match v with
  | some n => if n = 0 then d else n
  | none => d

/-- JS `a || b` defaulting on an optional rational config field (falsy:
`undefined`, `0`). -/
def jsOrRat (v : Option Rat) (d : Rat) : Rat :=
  match v with
  | some q => if q = 0 then d else q
  | none => d

/-- The `ModelProvider` constructor (`src/providers/base.ts` lines 44–50):
`config.model || this.getDefaultModel()`, `config.maxTokens || 4096`,
`config.temperature || 0.7`. -/
def ModelProvider.init (defaultModel : String) (config : ModelConfig) :
    ProviderState :=
  { apiKey := config.apiKey
    model := jsOrString config.model defaultModel
    maxTokens := jsOrNat config.maxTokens 4096
    temperature := jsOrRat config.temperature (7 / 10 : Rat)
    baseURL := config.baseURL }

/-- The snapshot returned by `ModelProvider.getConfig`. -/
structure ConfigSnapshot : Type where
  provider : String
  model : String
  maxTokens : Nat
  temperature : Rat
deriving DecidableEq

/-- Model of `ModelProvider.getConfig` (`src/providers/base.ts` lines 90–102). -/
def ModelProvider.getConfig (providerName : String) (st : ProviderState) :
    ConfigSnapshot :=
  { provider := providerName
    model := st.model
    maxTokens := st.maxTokens
    temperature := st.temperature }

/-- The default `ModelProvider.streamChat` (`src/providers/base.ts` lines
73–80): perform `chat` once and yield its entire content as the single
fragment; the fragment list of a run of the generator is the value. -/
def ModelProvider.streamChat {E : Type}
    (chatFn : List Message → Option String → Except E ModelResponse)
    (messages : List Message) (systemPrompt : Option String) :
    Except E (List String) :=
  match chatFn messages systemPrompt with
  | Except.ok response => Except.ok [response.content]
  | Except.error e => Except.error e

/-!
## The conversation session (`src/agent.ts`)
-/

/-- The mutable state of a `NovelAgent`: its conversation history and the
fixed system prompt built at construction. -/
structure AgentState : Type where
  history : List Message
  systemPrompt : String
deriving DecidableEq

/-- Model of `NovelAgent.chat` (`src/agent.ts` lines 68–93): push the user message onto
the history, call the provider with the full history and the system prompt;
on success push the assistant message and return the content; on failure the
`catch` re-throws after logging, leaving the user message appended. -/
def NovelAgent.chat {E : Type}
    (providerChat : List Message → Option String → Except E ModelResponse)
    (st : AgentState) (userMessage : String) : AgentState × Except E String :=
  let newHistory := st.history ++ [{ role := Role.user, content := userMessage }]
  match providerChat newHistory (some st.systemPrompt) with
  | Except.ok response =>
    ({ st with
        history := newHistory ++ [{ role := Role.assistant, content := response.content }] },
      Except.ok response.content)
  | Except.error e => ({ st with history := newHistory }, Except.error e)

/-- Model of `NovelAgent.getHistory` (`src/agent.ts` lines 105–107): a snapshot copy of
the conversation history. -/
def NovelAgent.getHistory (st : AgentState) : List Message :=
  st.history

/-- A sequence of `chat` calls in order, stopping at the first failure;
returns the final state and, on success, the list of assistant contents the
provider returned, in call order. -/
def NovelAgent.runChats {E : Type}
    (providerChat : List Message → Option String → Except E ModelResponse) :
    AgentState → List String → AgentState × Except E (List String)
  | st, [] => (st, Except.ok [])
  | st, u :: us =>
    match NovelAgent.chat providerChat st u with
    | (st1, Except.ok c) =>
      match NovelAgent.runChats providerChat st1 us with
      | (st2, Except.ok cs) => (st2, Except.ok (c :: cs))
      | (st2, Except.error e) => (st2, Except.error e)
    | (st1, Except.error e) => (st1, Except.error e)

/-!
## Concrete inputs used by witnesses and counterexamples
-/

/-- The spec's example SSE line carrying the delta `Hi`, newline-terminated. -/
def exHiLine : List Char :=
  ("data: \x7b\"choices\":[\x7b\"delta\":\x7b\"content\":\"Hi\"\x7d\x7d]\x7d\n").data

/-- The same SSE line without its terminating newline. -/
def exHiNoNl : List Char :=
  ("data: \x7b\"choices\":[\x7b\"delta\":\x7b\"content\":\"Hi\"\x7d\x7d]\x7d").data

/-- An SSE line carrying the delta `A`, without newline. -/
def exALine : List Char :=
  ("data: \x7b\"choices\":[\x7b\"delta\":\x7b\"content\":\"A\"\x7d\x7d]\x7d").data

/-- An SSE line carrying the delta `B`, newline-terminated. -/
def exBLineNl : List Char :=
  ("data: \x7b\"choices\":[\x7b\"delta\":\x7b\"content\":\"B\"\x7d\x7d]\x7d\n").data

/-- An SSE line whose payload after the marker is malformed JSON. -/
def exBadLine : List Char := ("data: \x7boops").data

/-- A provider call that always succeeds with content `R`. -/
def exPcOk : List Message → Option String → Except Unit ModelResponse :=
  fun _ _ => Except.ok { content := "R", model := "m" }

/-- A provider call that always throws. -/
def exPcFail : List Message → Option String → Except String ModelResponse :=
  fun _ _ => Except.error ("boom")

/-- A configuration supplying explicit zeros for maxTokens and temperature. -/
def exZeroConfig : ModelConfig :=
  { apiKey := ("key"), maxTokens := some 0, temperature := some 0 }

/-- The two history entries one successful `chat` call appends: the submitted
user text and the assistant content the provider returned. -/
def turnPair (p : String × String) : List Message :=
  [{ role := Role.user, content := p.1 },
   { role := Role.assistant, content := p.2 }]

/-!
## Helper lemmas about the SSE decoder
-/

theorem splitOnNl_ne_nil : ∀ (s : List Char), splitOnNl s ≠ [] := by
  intro s
  induction s with
  | nil => simp [splitOnNl]
  | cons c cs ih =>
    by_cases hc : c = '\n'
    · simp [splitOnNl, hc]
    · simp only [splitOnNl, if_neg hc]
      cases hsc : splitOnNl cs with
      | nil => simp
      | cons l ls => simp

theorem splitOnNl_nlFree : ∀ (s : List Char), (∀ c ∈ s, c ≠ '\n') →
    splitOnNl s = [s] := by
  intro s
  induction s with
  | nil => intro _; rfl
  | cons c cs ih =>
    intro h
    have hc : c ≠ '\n' := h c (List.mem_cons_self c cs)
    have hcs := ih (fun x hx => h x (List.mem_cons_of_mem c hx))
    simp [splitOnNl, if_neg hc, hcs]

theorem splitOnNl_nlFree_append : ∀ (w y : List Char), (∀ c ∈ w, c ≠ '\n') →
    splitOnNl (w ++ '\n' :: y) = w :: splitOnNl y := by
  intro w
  induction w with
  | nil => intro y _; simp [splitOnNl]
  | cons a w ih =>
    intro y h
    have ha : a ≠ '\n' := h a (List.mem_cons_self a w)
    have hw := ih y (fun x hx => h x (List.mem_cons_of_mem a hx))
    simp [splitOnNl, if_neg ha, hw]

theorem getLastD_cons_of_ne_nil {α : Type} (a d : α) (l : List α) (h : l ≠ []) :
    (a :: l).getLastD d = l.getLastD d := by
  cases l with
  | nil => exact absurd rfl h
  | cons b bs => simp [List.getLastD_cons]

theorem streamStep_eq_foldl : ∀ (chunk : List Char)
    (st : List (List Char) × List Char), (∀ c ∈ st.2, c ≠ '\n') →
    streamStep st chunk = List.foldl charStep st chunk := by
  intro chunk
  induction chunk with
  | nil =>
    intro st h
    simp [streamStep, splitOnNl_nlFree st.2 h]
  | cons ch c ih =>
    intro st h
    by_cases hch : ch = '\n'
    · subst hch
      rw [List.foldl_cons, ← ih (charStep st '\n') (by simp [charStep])]
      have hnl := splitOnNl_ne_nil c
      simp only [streamStep, charStep, if_pos rfl, List.nil_append,
        splitOnNl_nlFree_append st.2 c h]
      rw [List.dropLast_cons_of_ne_nil hnl, getLastD_cons_of_ne_nil _ _ _ hnl]
      simp [List.flatMap_cons, List.append_assoc]
    · rw [List.foldl_cons]
      have hstep : charStep st ch = (st.1, st.2 ++ [ch]) := by
        simp [charStep, if_neg hch]
      rw [← ih (charStep st ch) ?hbuf]
      case hbuf =>
        rw [hstep]
        intro x hx
        rcases List.mem_append.mp hx with h1 | h2
        · exact h x h1
        · simp at h2; subst h2; exact hch
      rw [hstep]
      simp only [streamStep]
      rw [List.append_cons st.2 ch c]

theorem foldl_charStep_nlFree : ∀ (w : List Char)
    (st : List (List Char) × List Char), (∀ c ∈ w, c ≠ '\n') →
    List.foldl charStep st w = (st.1, st.2 ++ w) := by
  intro w
  induction w with
  | nil => intro st _; simp
  | cons a w ih =>
    intro st h
    have ha : a ≠ '\n' := h a (List.mem_cons_self a w)
    rw [List.foldl_cons, ih _ (fun x hx => h x (List.mem_cons_of_mem a hx))]
    simp [charStep, if_neg ha]

theorem foldl_charStep_buf_nlFree : ∀ (l : List Char)
    (st : List (List Char) × List Char), (∀ c ∈ st.2, c ≠ '\n') →
    ∀ c ∈ (List.foldl charStep st l).2, c ≠ '\n' := by
  intro l
  induction l with
  | nil => intro st h; simpa using h
  | cons a l ih =>
    intro st h
    rw [List.foldl_cons]
    apply ih
    by_cases ha : a = '\n'
    · simp [charStep, ha]
    · simp only [charStep, if_neg ha]
      intro x hx
      rcases List.mem_append.mp hx with h1 | h2
      · exact h x h1
      · simp at h2; subst h2; exact ha

theorem foldl_streamStep_eq : ∀ (chunks : List (List Char))
    (st : List (List Char) × List Char), (∀ c ∈ st.2, c ≠ '\n') →
    List.foldl streamStep st chunks = List.foldl charStep st chunks.flatten := by
  intro chunks
  induction chunks with
  | nil => intro st _; rfl
  | cons ck cks ih =>
    intro st h
    rw [List.foldl_cons, List.flatten_cons, List.foldl_append,
      streamStep_eq_foldl ck st h]
    exact ih _ (foldl_charStep_buf_nlFree ck st h)

theorem streamDecode_eq_charFold (chunks : List (List Char)) :
    streamDecode chunks = List.foldl charStep ([], []) chunks.flatten :=
  foldl_streamStep_eq chunks ([], []) (by intro c hc; cases hc)

theorem foldl_charStep_snd_newline (x : List Char)
    (st : List (List Char) × List Char) :
    (List.foldl charStep st (x ++ ['\n'])).2 = [] := by
  rw [List.foldl_append]
  simp [charStep]

theorem lineFragments_of_parse_none (l : List Char)
    (h : jsonParse ((jsTrim l).drop 6) = none) : lineFragments l = [] := by
  simp only [lineFragments, h, ite_self]

theorem streamDecode_skip_line (pre w post : List Char)
    (hw : ∀ c ∈ w, c ≠ '\n') (hlf : lineFragments w = []) :
    streamDecode [pre ++ '\n' :: (w ++ '\n' :: post)] =
      streamDecode [pre ++ '\n' :: post] := by
  rw [streamDecode_eq_charFold, streamDecode_eq_charFold]
  simp only [List.flatten_cons, List.flatten_nil, List.append_nil]
  have h1 : pre ++ '\n' :: (w ++ '\n' :: post) =
      ((pre ++ ['\n']) ++ (w ++ ['\n'])) ++ post := by simp
  have h2 : pre ++ '\n' :: post = (pre ++ ['\n']) ++ post := by simp
  rw [h1, h2, List.foldl_append, List.foldl_append]
  set st1 := List.foldl charStep ([], []) (pre ++ ['\n']) with hst1
  have hbuf : st1.2 = [] := by
    rw [hst1]
    exact foldl_charStep_snd_newline pre ([], [])
  have hskip : List.foldl charStep st1 (w ++ ['\n']) = st1 := by
    rw [List.foldl_append, foldl_charStep_nlFree w st1 hw]
    show charStep (st1.1, st1.2 ++ w) '\n' = st1
    rw [hbuf]
    simp only [charStep, if_pos rfl, List.nil_append, hlf, List.append_nil]
    rw [← hbuf]
    exact Prod.mk.eta
  rw [hskip, List.foldl_append, ← hst1]

/-!
## Helper lemmas about the session and the adapters
-/

theorem map_message_eta : ∀ (l : List Message),
    l.map (fun msg => ({ role := msg.role, content := msg.content } : Message)) = l := by
  intro l
  induction l with
  | nil => rfl
  | cons m l ih => simp [ih]

theorem novelAgent_chat_ok {E : Type}
    (pc : List Message → Option String → Except E ModelResponse)
    (st : AgentState) (u : String) (r : ModelResponse)
    (h : pc (st.history ++ [{ role := Role.user, content := u }])
      (some st.systemPrompt) = Except.ok r) :
    NovelAgent.chat pc st u =
      ({ st with history := st.history ++
          [{ role := Role.user, content := u },
           { role := Role.assistant, content := r.content }] },
        Except.ok r.content) := by
  simp [NovelAgent.chat, h]

theorem novelAgent_chat_error {E : Type}
    (pc : List Message → Option String → Except E ModelResponse)
    (st : AgentState) (u : String) (e : E)
    (h : pc (st.history ++ [{ role := Role.user, content := u }])
      (some st.systemPrompt) = Except.error e) :
    NovelAgent.chat pc st u =
      ({ st with history := st.history ++ [{ role := Role.user, content := u }] },
        Except.error e) := by
  simp [NovelAgent.chat, h]

theorem runChats_ok_history {E : Type}
    (pc : List Message → Option String → Except E ModelResponse) :
    ∀ (us : List String) (st stF : AgentState) (cs : List String),
    NovelAgent.runChats pc st us = (stF, Except.ok cs) →
    stF.history = st.history ++ (us.zip cs).flatMap turnPair ∧
    cs.length = us.length := by
  intro us
  induction us with
  | nil =>
    intro st stF cs h
    simp only [NovelAgent.runChats, Prod.mk.injEq, Except.ok.injEq] at h
    obtain ⟨rfl, rfl⟩ := h
    simp
  | cons u us ih =>
    intro st stF cs h
    cases hpc : pc (st.history ++ [{ role := Role.user, content := u }])
        (some st.systemPrompt) with
    | error e =>
      simp only [NovelAgent.runChats] at h
      rw [novelAgent_chat_error pc st u e hpc] at h
      simp at h
    | ok r =>
      simp only [NovelAgent.runChats] at h
      rw [novelAgent_chat_ok pc st u r hpc] at h
      dsimp only at h
      split at h
      next st2 cs1 heq =>
        simp only [Prod.mk.injEq, Except.ok.injEq] at h
        obtain ⟨rfl, rfl⟩ := h
        obtain ⟨hh, hlen⟩ := ih _ st2 cs1 heq
        refine ⟨?_, by simp [hlen]⟩
        rw [hh]
        simp [turnPair, List.zip_cons_cons, List.flatMap_cons, List.append_assoc]
      next st2 e heq => simp at h

/-!
## Claim theorems
-/

/-- C1: for every sequence of `n` submit calls that all succeed, the history
snapshot returned by `getHistory` is exactly the user/assistant alternation in
call order — each user entry holding the submitted text, each assistant entry
the provider's returned content — and its length is `2 * n`. -/
theorem novelAgent_history_alternates {E : Type}
    (pc : List Message → Option String → Except E ModelResponse)
    (sys : String) (us : List String) (stF : AgentState) (cs : List String)
    (h : NovelAgent.runChats pc { history := [], systemPrompt := sys } us =
      (stF, Except.ok cs)) :
    NovelAgent.getHistory stF = (us.zip cs).flatMap turnPair ∧
    (NovelAgent.getHistory stF).length = 2 * us.length ∧
    cs.length = us.length := by
  obtain ⟨hh, hlen⟩ := runChats_ok_history pc us _ stF cs h
  have hhist : NovelAgent.getHistory stF = (us.zip cs).flatMap turnPair := by
    simpa [NovelAgent.getHistory] using hh
  refine ⟨hhist, ?_, hlen⟩
  rw [hhist]
  have hzip : (us.zip cs).length = us.length := by
    rw [List.length_zip, hlen]
    exact Nat.min_self us.length
  have hflat : ∀ l : List (String × String),
      (l.flatMap turnPair).length = 2 * l.length := by
    intro l
    induction l with
    | nil => rfl
    | cons p l ih =>
      simp only [List.flatMap_cons, List.length_append, ih, turnPair,
        List.length_cons, List.length_nil, List.length_cons]
      omega
  rw [hflat, hzip]

/-- Witness for C1 at two submits against a provider answering `R`. -/
theorem novelAgent_history_alternates_witness :
    NovelAgent.getHistory
        { history := [{ role := Role.user, content := ("a") },
                      { role := Role.assistant, content := ("R") },
                      { role := Role.user, content := ("b") },
                      { role := Role.assistant, content := ("R") }],
          systemPrompt := ("s") } =
      (([("a"), ("b")] : List String).zip [("R"), ("R")]).flatMap turnPair ∧
    (NovelAgent.getHistory
        { history := [{ role := Role.user, content := ("a") },
                      { role := Role.assistant, content := ("R") },
                      { role := Role.user, content := ("b") },
                      { role := Role.assistant, content := ("R") }],
          systemPrompt := ("s") }).length = 2 * ([("a"), ("b")] : List String).length ∧
    ([("R"), ("R")] : List String).length = ([("a"), ("b")] : List String).length :=
  novelAgent_history_alternates exPcOk ("s") [("a"), ("b")]
    { history := [{ role := Role.user, content := ("a") },
                  { role := Role.assistant, content := ("R") },
                  { role := Role.user, content := ("b") },
                  { role := Role.assistant, content := ("R") }],
      systemPrompt := ("s") } [("R"), ("R")] rfl

/-- C2: the fragment sequence the SSE decoder yields is invariant under how the
byte stream is split into partial reads — any two chunkings with the same
concatenation decode identically (fragments and final buffer). -/
theorem streamDecode_chunk_invariant (chunks1 chunks2 : List (List Char))
    (h : chunks1.flatten = chunks2.flatten) :
    streamDecode chunks1 = streamDecode chunks2 := by
  rw [streamDecode_eq_charFold, streamDecode_eq_charFold, h]

/-- Witness for C2: the spec's example line delivered across two partial reads
yields the fragment `Hi` exactly once. -/
theorem streamDecode_chunk_invariant_witness :
    ([exHiLine.take 17, exHiLine.drop 17] : List (List Char)).flatten =
      ([exHiLine] : List (List Char)).flatten ∧
    (streamDecode [exHiLine.take 17, exHiLine.drop 17]).1 = [("Hi").data] := by
  refine ⟨rfl, ?_⟩
  rw [streamDecode_chunk_invariant [exHiLine.take 17, exHiLine.drop 17] [exHiLine] rfl]
  rfl

/-- C3 counterexample: the decoder handles `data: [DONE]` with `continue`, not
by stopping — a data line arriving after the sentinel still yields its
fragment, so the sentinel does not terminate fragment emission. -/
theorem streamDecode_done_cex :
    (streamDecode [doneChars ++ '\n' :: exHiLine]).1 = [("Hi").data] ∧
    (streamDecode [doneChars ++ '\n' :: exHiLine]).1 ≠ [] := by
  have h1 : (streamDecode [doneChars ++ '\n' :: exHiLine]).1 = [("Hi").data] := rfl
  exact ⟨h1, by rw [h1]; exact List.cons_ne_nil _ _⟩

/-- C3 (amended): a `data: [DONE]` line is skipped — it never contributes a
fragment — but emission is not terminated: the decoded stream equals the
stream with the sentinel line removed, so lines after it are still processed
normally. -/
theorem streamDecode_done_line_skipped (pre post : List Char) :
    streamDecode [pre ++ '\n' :: (doneChars ++ '\n' :: post)] =
      streamDecode [pre ++ '\n' :: post] :=
  streamDecode_skip_line pre doneChars post (by decide) rfl

/-- C4: when the provider call throws, the failed submit leaves the prior
history with exactly the new user message appended — no assistant entry, no
rollback — and the same error propagates to the caller. -/
theorem novelAgent_chat_error_keeps_user_turn {E : Type}
    (pc : List Message → Option String → Except E ModelResponse)
    (st : AgentState) (u : String) (e : E)
    (h : pc (st.history ++ [{ role := Role.user, content := u }])
      (some st.systemPrompt) = Except.error e) :
    NovelAgent.chat pc st u =
      ({ st with history := st.history ++ [{ role := Role.user, content := u }] },
        Except.error e) :=
  novelAgent_chat_error pc st u e h

/-- Witness for C4 against a provider that always throws `boom`. -/
theorem novelAgent_chat_error_keeps_user_turn_witness :
    NovelAgent.chat exPcFail
        { history := [{ role := Role.user, content := ("x") }],
          systemPrompt := ("s") } ("u") =
      ({ history := [{ role := Role.user, content := ("x") },
                     { role := Role.user, content := ("u") }],
         systemPrompt := ("s") },
        Except.error ("boom")) :=
  novelAgent_chat_error_keeps_user_turn exPcFail
    { history := [{ role := Role.user, content := ("x") }],
      systemPrompt := ("s") } ("u") ("boom") rfl

/-- C5: the request the Claude adapter builds carries no system-role message —
its message list is exactly the input history with system entries dropped
(other entries keep role, content and relative order) — and the system
instruction appears once, as the dedicated top-level field. -/
theorem claude_request_excludes_system (model : String) (maxTokens : Nat)
    (temperature : Rat) (msgs : List Message) (sys : Option String) :
    (ClaudeProvider.buildRequest model maxTokens temperature msgs sys).messages =
      msgs.filter (fun m => decide (m.role ≠ Role.system)) ∧
    (∀ m ∈ (ClaudeProvider.buildRequest model maxTokens temperature msgs sys).messages,
      m.role ≠ Role.system) ∧
    (ClaudeProvider.buildRequest model maxTokens temperature msgs sys).system = sys := by
  have hmsg : (ClaudeProvider.buildRequest model maxTokens temperature msgs sys).messages =
      msgs.filter (fun m => decide (m.role ≠ Role.system)) := by
    show ClaudeProvider.convertMessages msgs = _
    rw [ClaudeProvider.convertMessages, map_message_eta]
  refine ⟨hmsg, ?_, rfl⟩
  intro m hm
  rw [hmsg] at hm
  simpa using (List.mem_filter.mp hm).2

/-- C6 counterexample: a supplied-but-empty system instruction is falsy, so the
DeepSeek adapter injects nothing — the outbound list for an empty history is
`[]`, not the claimed singleton system message. -/
theorem deepseek_empty_system_cex :
    DeepSeekProvider.convertMessages [] (some ("")) = [] ∧
    DeepSeekProvider.convertMessages [] (some ("")) ≠
      [{ role := Role.system, content := ("") }] :=
  ⟨rfl, by decide⟩

/-- C6 (amended): when a nonempty system instruction is given, the outbound
list is one system message with exactly that content followed by the history
unchanged; when the instruction is absent — or empty, which the adapter's
truthiness test treats like absent — the list is exactly the history. -/
theorem deepseek_convert_spec (msgs : List Message) (s : String) (h : s ≠ ("")) :
    DeepSeekProvider.convertMessages msgs (some s) =
      { role := Role.system, content := s } :: msgs ∧
    DeepSeekProvider.convertMessages msgs none = msgs ∧
    DeepSeekProvider.convertMessages msgs (some ("")) = msgs := by
  refine ⟨?_, ?_, ?_⟩
  · simp [DeepSeekProvider.convertMessages, jsTruthyStr, h, map_message_eta]
  · simp [DeepSeekProvider.convertMessages, jsTruthyStr, map_message_eta]
  · simp [DeepSeekProvider.convertMessages, jsTruthyStr, map_message_eta]

/-- Witness for C6 (amended) at a nonempty instruction and one-message history. -/
theorem deepseek_convert_spec_witness :
    DeepSeekProvider.convertMessages
        [{ role := Role.user, content := ("hi") }] (some ("sys")) =
      { role := Role.system, content := ("sys") } ::
        [{ role := Role.user, content := ("hi") }] ∧
    DeepSeekProvider.convertMessages [{ role := Role.user, content := ("hi") }] none =
      [{ role := Role.user, content := ("hi") }] ∧
    DeepSeekProvider.convertMessages
        [{ role := Role.user, content := ("hi") }] (some ("")) =
      [{ role := Role.user, content := ("hi") }] :=
  deepseek_convert_spec [{ role := Role.user, content := ("hi") }] ("sys") (by decide)

/-- C7: a completed line whose payload after the marker is malformed JSON is
skipped without aborting the stream — the decoded result equals that of the
stream with the malformed line absent, so fragments of well-formed lines
before and after it are emitted unchanged. -/
theorem streamDecode_malformed_line_skipped (pre l post : List Char)
    (hnl : ∀ c ∈ l, c ≠ '\n')
    (hbad : jsonParse ((jsTrim l).drop 6) = none) :
    streamDecode [pre ++ '\n' :: (l ++ '\n' :: post)] =
      streamDecode [pre ++ '\n' :: post] :=
  streamDecode_skip_line pre l post hnl (lineFragments_of_parse_none l hbad)

/-- Witness for C7: a malformed line between two good lines; the fragments are
exactly those of the two good lines. -/
theorem streamDecode_malformed_line_skipped_witness :
    (∀ c ∈ exBadLine, c ≠ '\n') ∧
    jsonParse ((jsTrim exBadLine).drop 6) = none ∧
    streamDecode [exALine ++ '\n' :: (exBadLine ++ '\n' :: exBLineNl)] =
      streamDecode [exALine ++ '\n' :: exBLineNl] ∧
    (streamDecode [exALine ++ '\n' :: (exBadLine ++ '\n' :: exBLineNl)]).1 =
      [("A").data, ("B").data] := by
  refine ⟨by decide, rfl,
    streamDecode_malformed_line_skipped exALine exBadLine exBLineNl (by decide) rfl, ?_⟩
  rw [streamDecode_malformed_line_skipped exALine exBadLine exBLineNl (by decide) rfl]
  rfl

/-- C8: when `chat` succeeds, the base-class default `streamChat` yields
exactly one fragment, the full response content — so the concatenation of its
fragments equals what `chat` returns on the same inputs. -/
theorem default_streamChat_single_fragment {E : Type}
    (chatFn : List Message → Option String → Except E ModelResponse)
    (msgs : List Message) (sys : Option String) (r : ModelResponse)
    (h : chatFn msgs sys = Except.ok r) :
    ModelProvider.streamChat chatFn msgs sys = Except.ok [r.content] ∧
    String.join [r.content] = r.content := by
  constructor
  · simp [ModelProvider.streamChat, h]
  · rfl

/-- Witness for C8 against a provider answering `R`. -/
theorem default_streamChat_single_fragment_witness :
    ModelProvider.streamChat exPcOk [] none = Except.ok [("R")] ∧
    String.join [("R")] = ("R") :=
  default_streamChat_single_fragment exPcOk [] none
    { content := ("R"), model := ("m") } rfl

/-- C9: a configuration supplying an explicit 0 for maxTokens or temperature
is reported by `getConfig` with the default instead (4096, 0.7): the falsy-or
defaulting of the constructor makes an explicit zero indistinguishable from an
absent field. -/
theorem getConfig_zero_reports_default (cfg : ModelConfig) (dm pn : String) :
    (cfg.maxTokens = some 0 →
      (ModelProvider.getConfig pn (ModelProvider.init dm cfg)).maxTokens = 4096) ∧
    (cfg.temperature = some 0 →
      (ModelProvider.getConfig pn (ModelProvider.init dm cfg)).temperature = 7 / 10) := by
  constructor
  · intro h
    simp [ModelProvider.getConfig, ModelProvider.init, jsOrNat, h]
  · intro h
    simp [ModelProvider.getConfig, ModelProvider.init, jsOrRat, h]

/-- Witness for C9 at a configuration with explicit zeros. -/
theorem getConfig_zero_reports_default_witness :
    (ModelProvider.getConfig ("DeepSeek")
      (ModelProvider.init ("deepseek-chat") exZeroConfig)).maxTokens = 4096 ∧
    (ModelProvider.getConfig ("DeepSeek")
      (ModelProvider.init ("deepseek-chat") exZeroConfig)).temperature = 7 / 10 :=
  ⟨(getConfig_zero_reports_default exZeroConfig ("deepseek-chat") ("DeepSeek")).1 rfl,
   (getConfig_zero_reports_default exZeroConfig ("deepseek-chat") ("DeepSeek")).2 rfl⟩

/-- C10: a trailing line not terminated by a newline stays in the carry-over
buffer when the stream completes and is never parsed — the yielded fragments
are exactly those of the newline-terminated prefix, so a delta carried on the
unterminated last line is silently dropped. -/
theorem streamDecode_trailing_line_buffered (x w : List Char)
    (hw : ∀ c ∈ w, c ≠ '\n') :
    streamDecode [x ++ w] = ((streamDecode [x]).1, (streamDecode [x]).2 ++ w) := by
  rw [streamDecode_eq_charFold, streamDecode_eq_charFold]
  simp only [List.flatten_cons, List.flatten_nil, List.append_nil]
  rw [List.foldl_append, foldl_charStep_nlFree w _ hw]

/-- Witness for C10: an unterminated data line carrying `Hi` produces no
fragment at all, though the same line completed would yield `Hi`. -/
theorem streamDecode_trailing_line_buffered_witness :
    (∀ c ∈ exHiNoNl, c ≠ '\n') ∧
    streamDecode [([] : List Char) ++ exHiNoNl] =
      ((streamDecode [([] : List Char)]).1,
        (streamDecode [([] : List Char)]).2 ++ exHiNoNl) ∧
    (streamDecode [exHiNoNl]).1 = [] ∧
    lineFragments exHiNoNl = [("Hi").data] := by
  refine ⟨by decide, streamDecode_trailing_line_buffered [] exHiNoNl (by decide), rfl, rfl⟩
